import Mathlib

set_option maxHeartbeats 1000000

/-! Shallow embedding of the Lunaria status computation engine: the methods
`getFullStatus`, `getFileStatus`, `getPathResolver` and `findFileConfig` of
`LunariaInstance`.  External collaborators that live outside this module
(`createPathResolver` from files/paths, `isFileLocalizable` and
`getDictionaryCompletion` from status/status, `LunariaGitInstance` from
status/git, `existsSync`, and the glob expander) are modelled as oracle
functions supplied by an `Env` record; the logic of this module is translated
directly from the source.  Timestamps are modelled as integers: the source
compares `new Date(a) > new Date(b)` on git dates, which for valid git dates
is exactly the strict order on the underlying epoch value.  The implicit
completion order of the per-file promises inside `Promise.all` is made
explicit as a `sched` parameter: the list of dispatched paths is reordered by
`sched` into the order in which the `status.push` calls fire. -/

namespace Lunaria

/-- Content type of a file group: the source only distinguishes the
dictionary type (string literal comparison with the word dictionary). -/
inductive FileType
  | universal
  | dictionary
deriving Repr, DecidableEq

/-- A locale as used by the engine: only the lang code is relevant here. -/
structure Locale where
  lang : String
deriving Repr, DecidableEq

/-- One entry of the files array of the configuration. -/
structure FileConfig where
  include_ : List String
  exclude : List String
  pattern : String
  type : FileType
  optionalKeys : Option (List String)
deriving Repr, DecidableEq

/-- The parts of LunariaConfig that the status engine reads. -/
structure LunariaConfig where
  sourceLocale : Locale
  locales : List Locale
  files : List FileConfig
  localizableProperty : String

/-- The latest tracked change of a file, with its date as an integer
timestamp. -/
structure Change where
  date : Int
deriving Repr, DecidableEq

/-- Result of LunariaGitInstance.getFileLatestChanges. -/
structure ChangeRecord where
  latestTrackedChange : Change
deriving Repr, DecidableEq

/-- The interface of the object returned by createPathResolver. -/
structure PathResolver where
  isSourcePathMatch : String → Bool
  isLocalesPathMatch : String → Bool
  toPath : String → String → String

/-- Oracle environment: the external collaborators of the status engine.
All of them are outside the translated module and are treated as opaque
pure functions; the filesystem and git history are fixed for a run. -/
structure Env where
  createPathResolver : String → Locale → List Locale → PathResolver
  isFileLocalizable : String → String → Except String Bool
  getFileLatestChanges : String → ChangeRecord
  existsSync : String → Bool
  glob : List String → List String → List String
  getDictionaryCompletion : Option (List String) → String → String → Except String (List String)

/-- Status values of a localization entry (the source uses the string
literals missing, outdated and up-to-date). -/
inductive LocStatus
  | missing
  | outdated
  | upToDate
deriving Repr, DecidableEq

/-- One localization entry of a file status entry.  The git field is
omitted by the source in the missing branch, hence an Option here; the
missingKeys field is only injected for dictionary groups. -/
structure StatusLocalizationEntry where
  lang : String
  path : String
  git : Option ChangeRecord
  status : LocStatus
  missingKeys : Option (List String)
deriving Repr, DecidableEq

/-- The source sub-object of a file status entry. -/
structure SourceEntry where
  lang : String
  path : String
  git : ChangeRecord
deriving Repr, DecidableEq

/-- One file status entry.  The source spreads the matched file config into
the top level of the object, so its five fields reappear here verbatim. -/
structure FileStatusEntry where
  include_ : List String
  exclude : List String
  pattern : String
  type : FileType
  optionalKeys : Option (List String)
  source : SourceEntry
  localizations : List StatusLocalizationEntry
deriving Repr, DecidableEq

/-- Messages emitted through the logger during getFileStatus. -/
inductive LogMsg
  | fileConfigNotFound
  | notLocalizable (msg : String)
deriving Repr, DecidableEq

/-- The observable outcome of one getFileStatus call: the returned entry
(none when the file was skipped), the logger messages, and the exact list of
paths passed to git getFileLatestChanges, in call order. -/
structure FileStatusOutcome where
  result : Option FileStatusEntry
  log : List LogMsg
  historyCalls : List String
deriving Repr, DecidableEq

/-- getPathResolver: createPathResolver over the pattern, the source locale
and the locale list of the configuration. -/
def getPathResolver (env : Env) (cfg : LunariaConfig) (pattern : String) : PathResolver :=
  env.createPathResolver pattern cfg.sourceLocale cfg.locales

/-- The predicate used by findFileConfig: the path matches the source or the
locales form of the pattern of the file group. -/
def groupMatches (env : Env) (cfg : LunariaConfig) (file : FileConfig) (path : String) : Bool :=
  let r := getPathResolver env cfg file.pattern
  r.isSourcePathMatch path || r.isLocalesPathMatch path

/-- findFileConfig: first entry of the files array whose pattern matches the
path in source or locale form (Array.prototype.find). -/
def findFileConfig (env : Env) (cfg : LunariaConfig) (path : String) : Option FileConfig :=
  cfg.files.find? (fun file => groupMatches env cfg file path)

/-- The source path of a given path: the path itself when it already matches
the source pattern, otherwise the pattern applied to the source lang. -/
def sourcePathOf (env : Env) (cfg : LunariaConfig) (fc : FileConfig) (path : String) : String :=
  let r := getPathResolver env cfg fc.pattern
  if r.isSourcePathMatch path then path else r.toPath path cfg.sourceLocale.lang

/-- The body of the per-locale callback inside getFileStatus.  Order of
operations mirrors the source: the localized path is derived, the git
history of the localized path is fetched unconditionally, outdatedness is
computed, then the existence check may short-circuit into a missing entry,
and finally the dictionary completion may terminate the run (modelled as the
error of the Except, carrying the surfaced message of process exit 1). -/
def localizationStatus (env : Env) (fc : FileConfig) (sourcePath : String)
    (r : PathResolver) (latestSourceChanges : ChangeRecord) (path : String) (lang : String) :
    Except String StatusLocalizationEntry :=
  let localizedPath := r.toPath path lang
  let latestLocaleChanges := env.getFileLatestChanges localizedPath
  let isOutdated :=
    latestSourceChanges.latestTrackedChange.date > latestLocaleChanges.latestTrackedChange.date
  if env.existsSync localizedPath = false then
    .ok { lang := lang, path := localizedPath, git := none, status := .missing, missingKeys := none }
  else
    if fc.type = .dictionary then
      match env.getDictionaryCompletion fc.optionalKeys sourcePath localizedPath with
      | .ok missingKeys =>
        .ok { lang := lang, path := localizedPath, git := some latestLocaleChanges,
              status := if isOutdated then .outdated else .upToDate,
              missingKeys := some missingKeys }
      | .error msg => .error msg
    else
      .ok { lang := lang, path := localizedPath, git := some latestLocaleChanges,
            status := if isOutdated then .outdated else .upToDate,
            missingKeys := none }

/-- The localizations array of getFileStatus: one entry per configured
locale, together with the list of paths passed to the git history lookup.
The git lookup on the localized path is recorded before the entry is
inspected, since the source performs it unconditionally. -/
def localizationsFold (env : Env) (fc : FileConfig) (sourcePath : String)
    (r : PathResolver) (latestSourceChanges : ChangeRecord) (path : String) :
    List Locale → Except String (List StatusLocalizationEntry) × List String
  | [] => (.ok [], [])
  | loc :: rest =>
    let localizedPath := r.toPath path loc.lang
    match localizationStatus env fc sourcePath r latestSourceChanges path loc.lang with
    | .error msg => (.error msg, [localizedPath])
    | .ok e =>
      let next := localizationsFold env fc sourcePath r latestSourceChanges path rest
      (next.1.map (fun es => e :: es), localizedPath :: next.2)

/-- getFileStatus.  A skipped file (no matching file config, or the
localizable check returning an Error) yields an ok outcome with no entry and
a logged message; a dictionary parse failure yields the error of the Except,
modelling the process exit of the source. -/
def getFileStatus (env : Env) (cfg : LunariaConfig) (path : String) :
    Except String FileStatusOutcome :=
  match findFileConfig env cfg path with
  | none => .ok { result := none, log := [.fileConfigNotFound], historyCalls := [] }
  | some fileConfig =>
    match env.isFileLocalizable path cfg.localizableProperty with
    | .error msg => .ok { result := none, log := [.notLocalizable msg], historyCalls := [] }
    | .ok _ =>
      match localizationsFold env fileConfig (sourcePathOf env cfg fileConfig path)
          (getPathResolver env cfg fileConfig.pattern)
          (env.getFileLatestChanges (sourcePathOf env cfg fileConfig path)) path cfg.locales with
      | (.error msg, _) => .error msg
      | (.ok locs, calls) =>
        .ok { result := some {
                include_ := fileConfig.include_
                exclude := fileConfig.exclude
                pattern := fileConfig.pattern
                type := fileConfig.type
                optionalKeys := fileConfig.optionalKeys
                source := {
                  lang := cfg.sourceLocale.lang
                  path := sourcePathOf env cfg fileConfig path
                  git := env.getFileLatestChanges (sourcePathOf env cfg fileConfig path) }
                localizations := locs }
              log := []
              historyCalls := sourcePathOf env cfg fileConfig path :: calls }

/-- Comparator of the JavaScript default Array.prototype.sort on strings:
code unit order, modelled through the core String compare. -/
def pathLe (a b : String) : Bool :=
  match compare a b with
  | .gt => false
  | _ => true

/-- Insertion step of the sort applied to the globbed paths. -/
def insertPath (p : String) : List String → List String
  | [] => [p]
  | q :: rest => if pathLe p q then p :: q :: rest else q :: insertPath p rest

/-- The deterministic sort applied before dispatch (sourceFilePaths.sort()). -/
def sortPaths : List String → List String
  | [] => []
  | p :: rest => insertPath p (sortPaths rest)

/-- The kept paths of one file group: the glob expansion of include minus
exclude, filtered to the paths matching the source pattern (the filtered out
paths are only warned about). -/
def sourceFilePathsOf (env : Env) (cfg : LunariaConfig) (file : FileConfig) : List String :=
  (env.glob file.include_ file.exclude).filter
    (fun path => (getPathResolver env cfg file.pattern).isSourcePathMatch path)

/-- Evaluation of a list of paths in the order in which their promises
complete: each ok outcome with an entry pushes the entry, skipped files push
nothing, and a dictionary parse failure aborts the run. -/
def processPaths (env : Env) (cfg : LunariaConfig) : List String → Except String (List FileStatusEntry)
  | [] => .ok []
  | p :: rest =>
    match getFileStatus env cfg p with
    | .error msg => .error msg
    | .ok out =>
      match processPaths env cfg rest with
      | .error msg => .error msg
      | .ok es =>
        .ok (match out.result with
             | some e => e :: es
             | none => es)

/-- One file group of getFullStatus: sort the kept paths, dispatch them, and
push results in completion order sched of the dispatched list. -/
def processGroup (env : Env) (cfg : LunariaConfig) (sched : List String → List String)
    (file : FileConfig) : Except String (List FileStatusEntry) :=
  processPaths env cfg (sched (sortPaths (sourceFilePathsOf env cfg file)))

/-- The loop of getFullStatus over the files array, groups processed
sequentially and appended in declaration order. -/
def getFullStatusAux (env : Env) (cfg : LunariaConfig) (sched : List String → List String) :
    List FileConfig → Except String (List FileStatusEntry)
  | [] => .ok []
  | f :: rest =>
    match processGroup env cfg sched f with
    | .error msg => .error msg
    | .ok es =>
      match getFullStatusAux env cfg sched rest with
      | .error msg => .error msg
      | .ok more => .ok (es ++ more)

/-- getFullStatus: the full status report, parameterized by the completion
order sched of each dispatched batch. -/
def getFullStatus (env : Env) (cfg : LunariaConfig) (sched : List String → List String) :
    Except String (List FileStatusEntry) :=
  getFullStatusAux env cfg sched cfg.files

/-- All paths dispatched to getFileStatus during a run, in completion
order. -/
def evaluatedPaths (env : Env) (cfg : LunariaConfig) (sched : List String → List String) :
    List String :=
  (cfg.files.map (fun f => sched (sortPaths (sourceFilePathsOf env cfg f)))).flatten

/-- The entry produced by one path, seen as a pure function (used to relate
the pushed results of different completion orders). -/
def pureEntry (env : Env) (cfg : LunariaConfig) (p : String) : Option FileStatusEntry :=
  match getFileStatus env cfg p with
  | .ok out => out.result
  | .error _ => none

/-! Characterization lemmas for the embedding. -/

/-- Shape of every ok result of the per-locale callback. -/
theorem localizationStatus_ok_spec (env : Env) (fc : FileConfig) (sourcePath : String)
    (r : PathResolver) (lsc : ChangeRecord) (path lang : String) (e : StatusLocalizationEntry)
    (h : localizationStatus env fc sourcePath r lsc path lang = .ok e) :
    e.lang = lang ∧
    e.path = r.toPath path lang ∧
    (e.status = .missing ↔ env.existsSync e.path = false) ∧
    (e.git = none ↔ e.status = .missing) ∧
    (e.missingKeys ≠ none → fc.type = .dictionary) ∧
    (env.existsSync e.path = true →
      e.git = some (env.getFileLatestChanges e.path) ∧
      (e.status = .outdated ↔
        lsc.latestTrackedChange.date > (env.getFileLatestChanges e.path).latestTrackedChange.date) ∧
      (e.status = .outdated ∨ e.status = .upToDate)) := by
  unfold localizationStatus at h
  by_cases hex : env.existsSync (r.toPath path lang) = false
  · simp only [hex, if_true] at h
    cases h
    simp [hex]
  · simp only [hex, if_false] at h
    by_cases hd : fc.type = FileType.dictionary
    · simp only [hd, if_true] at h
      cases hc : env.getDictionaryCompletion fc.optionalKeys sourcePath (r.toPath path lang) with
      | ok ks =>
        rw [hc] at h
        cases h
        simp only [Bool.not_eq_false] at hex
        by_cases hlt : lsc.latestTrackedChange.date >
            (env.getFileLatestChanges (r.toPath path lang)).latestTrackedChange.date
        · simp [hlt, hex, hd]
        · simp [hlt, hex, hd]
      | error msg => rw [hc] at h; cases h
    · simp only [hd, if_false] at h
      cases h
      simp only [Bool.not_eq_false] at hex
      by_cases hlt : lsc.latestTrackedChange.date >
          (env.getFileLatestChanges (r.toPath path lang)).latestTrackedChange.date
      · simp [hlt, hex]
      · simp [hlt, hex]

/-- The per-locale callback only fails on an existing localized path of a
dictionary group whose completion check fails, with that same message. -/
theorem localizationStatus_error_spec (env : Env) (fc : FileConfig) (sourcePath : String)
    (r : PathResolver) (lsc : ChangeRecord) (path lang msg : String)
    (h : localizationStatus env fc sourcePath r lsc path lang = .error msg) :
    env.existsSync (r.toPath path lang) = true ∧ fc.type = .dictionary ∧
    env.getDictionaryCompletion fc.optionalKeys sourcePath (r.toPath path lang) = .error msg := by
  unfold localizationStatus at h
  by_cases hex : env.existsSync (r.toPath path lang) = false
  · simp [hex] at h
  · simp only [hex, if_false] at h
    by_cases hd : fc.type = FileType.dictionary
    · simp only [hd, if_true] at h
      cases hc : env.getDictionaryCompletion fc.optionalKeys sourcePath (r.toPath path lang) with
      | ok ks => rw [hc] at h; cases h
      | error m =>
        rw [hc] at h
        cases h
        simp only [Bool.not_eq_false] at hex
        exact ⟨hex, hd, rfl⟩
    · simp [hd] at h

/-- Shape of every ok run of the localizations fold: the recorded history
calls are exactly the localized paths of the produced entries, there is one
entry per locale, and each entry comes from the per-locale callback. -/
theorem localizationsFold_ok_spec (env : Env) (fc : FileConfig) (sourcePath : String)
    (r : PathResolver) (lsc : ChangeRecord) (path : String) :
    ∀ (locs : List Locale) (es : List StatusLocalizationEntry) (calls : List String),
      localizationsFold env fc sourcePath r lsc path locs = (.ok es, calls) →
      calls = es.map (fun e => e.path) ∧
      ∀ e ∈ es, ∃ loc ∈ locs, localizationStatus env fc sourcePath r lsc path loc.lang = .ok e
  | [], es, calls, h => by
    unfold localizationsFold at h
    cases h
    simp
  | loc :: rest, es, calls, h => by
    unfold localizationsFold at h
    cases hs : localizationStatus env fc sourcePath r lsc path loc.lang with
    | error m => rw [hs] at h; cases h
    | ok e =>
      rw [hs] at h
      cases hrest : localizationsFold env fc sourcePath r lsc path rest with
      | mk res calls2 =>
        rw [hrest] at h
        cases res with
        | error m => cases h
        | ok es2 =>
          simp only [Except.map] at h
          cases h
          obtain ⟨hcalls, hmem⟩ :=
            localizationsFold_ok_spec env fc sourcePath r lsc path rest es2 calls2 hrest
          constructor
          · have hp := (localizationStatus_ok_spec env fc sourcePath r lsc path loc.lang e hs).2.1
            simp [hcalls, hp]
          · intro x hx
            cases hx with
            | head => exact ⟨loc, List.mem_cons_self _ _, hs⟩
            | tail _ hx2 =>
              obtain ⟨loc2, hloc2, hst⟩ := hmem x hx2
              exact ⟨loc2, List.mem_cons_of_mem _ hloc2, hst⟩

/-- A failing localizations fold pinpoints a locale whose callback failed
with the same message. -/
theorem localizationsFold_error_spec (env : Env) (fc : FileConfig) (sourcePath : String)
    (r : PathResolver) (lsc : ChangeRecord) (path : String) :
    ∀ (locs : List Locale) (msg : String) (calls : List String),
      localizationsFold env fc sourcePath r lsc path locs = (.error msg, calls) →
      ∃ loc ∈ locs, localizationStatus env fc sourcePath r lsc path loc.lang = .error msg
  | [], msg, calls, h => by
    unfold localizationsFold at h
    cases h
  | loc :: rest, msg, calls, h => by
    unfold localizationsFold at h
    cases hs : localizationStatus env fc sourcePath r lsc path loc.lang with
    | error m =>
      rw [hs] at h
      cases h
      exact ⟨loc, List.mem_cons_self _ _, hs⟩
    | ok e =>
      rw [hs] at h
      cases hrest : localizationsFold env fc sourcePath r lsc path rest with
      | mk res calls2 =>
        rw [hrest] at h
        cases res with
        | error m =>
          simp only [Except.map] at h
          cases h
          obtain ⟨loc2, hloc2, hst⟩ :=
            localizationsFold_error_spec env fc sourcePath r lsc path rest msg calls2 hrest
          exact ⟨loc2, List.mem_cons_of_mem _ hloc2, hst⟩
        | ok es2 => simp only [Except.map] at h; cases h

/-- Master characterization of a getFileStatus call that produced an entry:
the matched file config is spread into the entry, the source sub-object is
built from the normalized source path, the history calls are exactly the
source path followed by the localized path of every localization entry, and
every localization entry comes from the per-locale callback over some
configured locale. -/
theorem getFileStatus_ok_spec (env : Env) (cfg : LunariaConfig) (path : String)
    (out : FileStatusOutcome) (entry : FileStatusEntry)
    (hok : getFileStatus env cfg path = .ok out)
    (hentry : out.result = some entry) :
    ∃ fc, findFileConfig env cfg path = some fc ∧
      entry.include_ = fc.include_ ∧ entry.exclude = fc.exclude ∧
      entry.pattern = fc.pattern ∧ entry.type = fc.type ∧
      entry.optionalKeys = fc.optionalKeys ∧
      entry.source.lang = cfg.sourceLocale.lang ∧
      entry.source.path = sourcePathOf env cfg fc path ∧
      entry.source.git = env.getFileLatestChanges (sourcePathOf env cfg fc path) ∧
      out.log = [] ∧
      out.historyCalls = entry.source.path :: entry.localizations.map (fun l => l.path) ∧
      ∀ l ∈ entry.localizations, ∃ loc ∈ cfg.locales,
        localizationStatus env fc (sourcePathOf env cfg fc path)
          (getPathResolver env cfg fc.pattern)
          (env.getFileLatestChanges (sourcePathOf env cfg fc path)) path loc.lang = .ok l := by
  unfold getFileStatus at hok
  split at hok
  · cases hok
    simp at hentry
  · next fc hfc =>
    split at hok
    · cases hok
      simp at hentry
    · next b hloc =>
      split at hok
      · cases hok
      · next locs calls hfold =>
        cases hok
        simp only [Option.some.injEq] at hentry
        subst hentry
        obtain ⟨hcalls, hmem⟩ := localizationsFold_ok_spec env fc
          (sourcePathOf env cfg fc path) (getPathResolver env cfg fc.pattern)
          (env.getFileLatestChanges (sourcePathOf env cfg fc path)) path cfg.locales locs
          calls hfold
        exact ⟨fc, hfc, rfl, rfl, rfl, rfl, rfl, rfl, rfl, rfl, rfl,
          by simp [hcalls], hmem⟩

/-- A failing getFileStatus call pinpoints a dictionary group whose
completion check failed on an existing localized path, with that same
surfaced message. -/
theorem getFileStatus_error_spec (env : Env) (cfg : LunariaConfig) (path msg : String)
    (h : getFileStatus env cfg path = .error msg) :
    ∃ fc, findFileConfig env cfg path = some fc ∧ fc.type = .dictionary ∧
      ∃ loc ∈ cfg.locales,
        env.existsSync ((getPathResolver env cfg fc.pattern).toPath path loc.lang) = true ∧
        env.getDictionaryCompletion fc.optionalKeys (sourcePathOf env cfg fc path)
          ((getPathResolver env cfg fc.pattern).toPath path loc.lang) = .error msg := by
  unfold getFileStatus at h
  split at h
  · cases h
  · next fc hfc =>
    split at h
    · cases h
    · next b hloc =>
      split at h
      · next m calls hfold =>
        cases h
        obtain ⟨loc, hlocmem, hst⟩ := localizationsFold_error_spec env fc
          (sourcePathOf env cfg fc path) (getPathResolver env cfg fc.pattern)
          (env.getFileLatestChanges (sourcePathOf env cfg fc path)) path cfg.locales msg
          calls hfold
        obtain ⟨hex, hd, hcomp⟩ := localizationStatus_error_spec env fc
          (sourcePathOf env cfg fc path) (getPathResolver env cfg fc.pattern)
          (env.getFileLatestChanges (sourcePathOf env cfg fc path)) path loc.lang msg hst
        exact ⟨fc, hfc, hd, loc, hlocmem, hex, hcomp⟩
      · cases h

/-- A skipped file: no matching config or a failing localizable check gives
an ok outcome with no entry and a nonempty log. -/
theorem getFileStatus_skip_spec (env : Env) (cfg : LunariaConfig) (path : String)
    (h : findFileConfig env cfg path = none ∨
         ∃ msg, env.isFileLocalizable path cfg.localizableProperty = .error msg) :
    ∃ out, getFileStatus env cfg path = .ok out ∧ out.result = none ∧ out.log ≠ [] := by
  unfold getFileStatus
  cases h with
  | inl hfc =>
    rw [hfc]
    exact ⟨_, rfl, rfl, by simp⟩
  | inr hloc =>
    obtain ⟨msg, hmsg⟩ := hloc
    cases hfc : findFileConfig env cfg path with
    | none => exact ⟨_, rfl, rfl, by simp⟩
    | some fc =>
      rw [hmsg]
      exact ⟨_, rfl, rfl, by simp⟩

/-- Every ok run over a path list evaluates each path successfully and
collects exactly the produced entries, in the given order. -/
theorem processPaths_ok_spec (env : Env) (cfg : LunariaConfig) :
    ∀ (l : List String) (r : List FileStatusEntry),
      processPaths env cfg l = .ok r →
      r = l.filterMap (pureEntry env cfg) ∧
      ∀ p ∈ l, (getFileStatus env cfg p).isOk = true
  | [], r, h => by
    unfold processPaths at h
    cases h
    simp
  | p :: rest, r, h => by
    unfold processPaths at h
    cases hp : getFileStatus env cfg p with
    | error m => rw [hp] at h; cases h
    | ok out =>
      rw [hp] at h
      cases hrest : processPaths env cfg rest with
      | error m => rw [hrest] at h; cases h
      | ok es =>
        rw [hrest] at h
        cases h
        obtain ⟨hes, hall⟩ := processPaths_ok_spec env cfg rest es hrest
        constructor
        · cases hout : out.result with
          | some e => simp [hout, List.filterMap_cons, pureEntry, hp, hes]
          | none => simp [hout, List.filterMap_cons, pureEntry, hp, hes]
        · intro q hq
          cases hq with
          | head => simp [hp, Except.isOk, Except.toBool]
          | tail _ hq2 => exact hall q hq2

/-- Inserting into the sorted list is a permutation of consing. -/
theorem insertPath_perm (p : String) : ∀ (l : List String), (insertPath p l).Perm (p :: l)
  | [] => List.Perm.refl _
  | q :: rest => by
    unfold insertPath
    by_cases hle : pathLe p q = true
    · simp [hle]
    · simp only [hle, if_false]
      exact ((insertPath_perm p rest).cons q).trans (List.Perm.swap p q rest)

/-- The pre-dispatch sort is a permutation of its input. -/
theorem sortPaths_perm : ∀ (l : List String), (sortPaths l).Perm l
  | [] => List.Perm.refl _
  | p :: rest => (insertPath_perm p (sortPaths rest)).trans ((sortPaths_perm rest).cons p)

/-- Evaluating a path that is skipped (ok outcome without an entry) leaves
the results of every other path untouched. -/
theorem processPaths_skip (env : Env) (cfg : LunariaConfig) (path : String)
    (out : FileStatusOutcome) (hout : getFileStatus env cfg path = .ok out)
    (hres : out.result = none) :
    ∀ (l1 l2 : List String),
      processPaths env cfg (l1 ++ path :: l2) = processPaths env cfg (l1 ++ l2)
  | [], l2 => by
    simp only [List.nil_append]
    conv_lhs => rw [processPaths]
    rw [hout]
    dsimp only
    rw [hres]
    cases processPaths env cfg l2 <;> rfl
  | q :: l1, l2 => by
    simp only [List.cons_append]
    conv_lhs => rw [processPaths]
    conv_rhs => rw [processPaths]
    rw [processPaths_skip env cfg path out hout hres l1 l2]

/-- Every ok run of the group loop evaluates every dispatched path of every
group successfully and concatenates per-group results in declaration
order. -/
theorem getFullStatusAux_ok_spec (env : Env) (cfg : LunariaConfig)
    (sched : List String → List String) :
    ∀ (fs : List FileConfig) (r : List FileStatusEntry),
      getFullStatusAux env cfg sched fs = .ok r →
      r = (fs.map (fun f =>
            (sched (sortPaths (sourceFilePathsOf env cfg f))).filterMap
              (pureEntry env cfg))).flatten ∧
      ∀ f ∈ fs, ∀ p ∈ sched (sortPaths (sourceFilePathsOf env cfg f)),
        (getFileStatus env cfg p).isOk = true
  | [], r, h => by
    unfold getFullStatusAux at h
    cases h
    simp
  | f :: rest, r, h => by
    unfold getFullStatusAux at h
    cases hg : processGroup env cfg sched f with
    | error m => rw [hg] at h; cases h
    | ok es =>
      rw [hg] at h
      cases hrest : getFullStatusAux env cfg sched rest with
      | error m => rw [hrest] at h; cases h
      | ok more =>
        rw [hrest] at h
        cases h
        obtain ⟨hes, hall⟩ := processPaths_ok_spec env cfg _ es hg
        obtain ⟨hmore, hallrest⟩ := getFullStatusAux_ok_spec env cfg sched rest more hrest
        constructor
        · simp [hes, hmore]
        · intro f2 hf2 p hp
          cases hf2 with
          | head => exact hall p hp
          | tail _ hf3 => exact hallrest f2 hf3 p hp

/-- Two ok runs of the group loop under completion orders that permute each
dispatched batch produce permuted results. -/
theorem getFullStatusAux_perm (env : Env) (cfg : LunariaConfig)
    (sched1 sched2 : List String → List String)
    (hs1 : ∀ l, (sched1 l).Perm l) (hs2 : ∀ l, (sched2 l).Perm l) :
    ∀ (fs : List FileConfig) (r1 r2 : List FileStatusEntry),
      getFullStatusAux env cfg sched1 fs = .ok r1 →
      getFullStatusAux env cfg sched2 fs = .ok r2 →
      r1.Perm r2
  | [], r1, r2, h1, h2 => by
    unfold getFullStatusAux at h1 h2
    cases h1
    cases h2
    exact List.Perm.refl _
  | f :: rest, r1, r2, h1, h2 => by
    unfold getFullStatusAux at h1 h2
    cases hg1 : processGroup env cfg sched1 f with
    | error m => rw [hg1] at h1; cases h1
    | ok es1 =>
      rw [hg1] at h1
      cases hr1 : getFullStatusAux env cfg sched1 rest with
      | error m => rw [hr1] at h1; cases h1
      | ok more1 =>
        rw [hr1] at h1
        cases h1
        cases hg2 : processGroup env cfg sched2 f with
        | error m => rw [hg2] at h2; cases h2
        | ok es2 =>
          rw [hg2] at h2
          cases hr2 : getFullStatusAux env cfg sched2 rest with
          | error m => rw [hr2] at h2; cases h2
          | ok more2 =>
            rw [hr2] at h2
            cases h2
            obtain ⟨hes1, _⟩ := processPaths_ok_spec env cfg _ es1 hg1
            obtain ⟨hes2, _⟩ := processPaths_ok_spec env cfg _ es2 hg2
            have hperm : es1.Perm es2 := by
              rw [hes1, hes2]
              exact ((hs1 _).filterMap (pureEntry env cfg)).trans
                ((hs2 _).filterMap (pureEntry env cfg)).symm
            exact hperm.append (getFullStatusAux_perm env cfg sched1 sched2 hs1 hs2 rest
              more1 more2 hr1 hr2)

/-- Mapping a key that inverts the partial evaluation back to its input
yields a sublist of the evaluated inputs. -/
theorem filterMap_map_key_sublist {α β : Type} (pf : α → Option β) (key : β → α) :
    ∀ (l : List α), (∀ p ∈ l, ∀ e, pf p = some e → key e = p) →
      (((l.filterMap pf).map key).Sublist l)
  | [], _ => by simp
  | p :: rest, hkey => by
    have hrest := filterMap_map_key_sublist pf key rest
      (fun q hq e he => hkey q (List.mem_cons_of_mem _ hq) e he)
    cases hp : pf p with
    | none => simpa [List.filterMap_cons, hp] using hrest.cons p
    | some e =>
      have : key e = p := hkey p (List.mem_cons_self _ _) e hp
      simp only [List.filterMap_cons, hp, List.map_cons, this]
      exact hrest.cons₂ p

/-! Concrete fixtures: small environments and configurations used to
evaluate the engine on explicit inputs. -/

/-- A resolver for a single-file pattern with source locale en and target
locale fr, in the spirit of docs/@lang/g.md. -/
def resolverGuide : PathResolver where
  isSourcePathMatch := fun p => p == "docs/en/g.md"
  isLocalesPathMatch := fun p => p == "docs/fr/g.md"
  toPath := fun _ lang => if lang == "fr" then "docs/fr/g.md" else "docs/en/g.md"

/-- The universal file group of the single-group fixtures. -/
def fcUniversal : FileConfig where
  include_ := ["docs/**"]
  exclude := []
  pattern := "docs/@lang/g.md"
  type := .universal
  optionalKeys := none

/-- Single-group configuration with source locale en and one target fr. -/
def cfgOneGroup : LunariaConfig where
  sourceLocale := ⟨"en"⟩
  locales := [⟨"fr"⟩]
  files := [fcUniversal]
  localizableProperty := "i18nReady"

/-- Environment where the fr counterpart does not exist on disk; the source
file was last changed at time 2 and every other path at time 1. -/
def envMissingFr : Env where
  createPathResolver := fun _ _ _ => resolverGuide
  isFileLocalizable := fun _ _ => .ok true
  getFileLatestChanges := fun p => if p == "docs/en/g.md" then ⟨⟨2⟩⟩ else ⟨⟨1⟩⟩
  existsSync := fun p => p == "docs/en/g.md"
  glob := fun _ _ => ["docs/en/g.md"]
  getDictionaryCompletion := fun _ _ _ => .ok []

/-- Environment where the fr counterpart exists and is older (time 1) than
the source (time 2). -/
def envExistsFr : Env where
  createPathResolver := fun _ _ _ => resolverGuide
  isFileLocalizable := fun _ _ => .ok true
  getFileLatestChanges := fun p => if p == "docs/en/g.md" then ⟨⟨2⟩⟩ else ⟨⟨1⟩⟩
  existsSync := fun p => p == "docs/en/g.md" || p == "docs/fr/g.md"
  glob := fun _ _ => ["docs/en/g.md"]
  getDictionaryCompletion := fun _ _ _ => .ok []

/-- The fr localization entry produced by envExistsFr over cfgOneGroup. -/
def lC3 : StatusLocalizationEntry where
  lang := "fr"
  path := "docs/fr/g.md"
  git := some ⟨⟨1⟩⟩
  status := .outdated
  missingKeys := none

/-- The file status entry produced by envExistsFr over cfgOneGroup. -/
def entryC3 : FileStatusEntry where
  include_ := ["docs/**"]
  exclude := []
  pattern := "docs/@lang/g.md"
  type := .universal
  optionalKeys := none
  source := { lang := "en", path := "docs/en/g.md", git := ⟨⟨2⟩⟩ }
  localizations := [lC3]

/-- The outcome produced by envExistsFr over cfgOneGroup. -/
def outC3 : FileStatusOutcome where
  result := some entryC3
  log := []
  historyCalls := ["docs/en/g.md", "docs/fr/g.md"]

/-- The fr localization entry produced by envMissingFr over cfgOneGroup. -/
def lC1 : StatusLocalizationEntry where
  lang := "fr"
  path := "docs/fr/g.md"
  git := none
  status := .missing
  missingKeys := none

/-- The file status entry produced by envMissingFr over cfgOneGroup. -/
def entryC1 : FileStatusEntry where
  include_ := ["docs/**"]
  exclude := []
  pattern := "docs/@lang/g.md"
  type := .universal
  optionalKeys := none
  source := { lang := "en", path := "docs/en/g.md", git := ⟨⟨2⟩⟩ }
  localizations := [lC1]

/-- The outcome produced by envMissingFr over cfgOneGroup. -/
def outC1 : FileStatusOutcome where
  result := some entryC1
  log := []
  historyCalls := ["docs/en/g.md", "docs/fr/g.md"]

/-- A resolver for which every path is a source path. -/
def resolverAll : PathResolver where
  isSourcePathMatch := fun _ => true
  isLocalesPathMatch := fun _ => false
  toPath := fun p _ => p

/-- A file group whose glob yields two source paths. -/
def fcAll : FileConfig where
  include_ := ["**"]
  exclude := []
  pattern := "pat"
  type := .universal
  optionalKeys := none

/-- Configuration with the single group fcAll and no target locales. -/
def cfgTwoPaths : LunariaConfig where
  sourceLocale := ⟨"en"⟩
  locales := []
  files := [fcAll]
  localizableProperty := "i18nReady"

/-- Environment whose glob yields two files, listed out of order. -/
def envTwoPaths : Env where
  createPathResolver := fun _ _ _ => resolverAll
  isFileLocalizable := fun _ _ => .ok true
  getFileLatestChanges := fun _ => ⟨⟨0⟩⟩
  existsSync := fun _ => true
  glob := fun _ _ => ["b.md", "a.md"]
  getDictionaryCompletion := fun _ _ _ => .ok []

/-- The file status entry produced for one path by envTwoPaths. -/
def entryFor (p : String) : FileStatusEntry where
  include_ := ["**"]
  exclude := []
  pattern := "pat"
  type := .universal
  optionalKeys := none
  source := { lang := "en", path := p, git := ⟨⟨0⟩⟩ }
  localizations := []

/-- Second file group whose include glob overlaps the first. -/
def fcDup2 : FileConfig where
  include_ := ["a*"]
  exclude := []
  pattern := "pat2"
  type := .universal
  optionalKeys := none

/-- Configuration with two file groups whose globs both capture a.md. -/
def cfgDup : LunariaConfig where
  sourceLocale := ⟨"en"⟩
  locales := []
  files := [fcAll, fcDup2]
  localizableProperty := "i18nReady"

/-- Environment whose glob yields the same path for both groups. -/
def envDup : Env where
  createPathResolver := fun _ _ _ => resolverAll
  isFileLocalizable := fun _ _ => .ok true
  getFileLatestChanges := fun _ => ⟨⟨0⟩⟩
  existsSync := fun _ => true
  glob := fun _ _ => ["a.md"]
  getDictionaryCompletion := fun _ _ _ => .ok []

/-- A dictionary file group. -/
def fcDict : FileConfig where
  include_ := ["docs/**"]
  exclude := []
  pattern := "docs/@lang/g.md"
  type := .dictionary
  optionalKeys := some []

/-- Configuration with the single dictionary group fcDict. -/
def cfgDict : LunariaConfig where
  sourceLocale := ⟨"en"⟩
  locales := [⟨"fr"⟩]
  files := [fcDict]
  localizableProperty := "i18nReady"

/-- Environment whose dictionary completion check fails to parse. -/
def envDictFail : Env where
  createPathResolver := fun _ _ _ => resolverGuide
  isFileLocalizable := fun _ _ => .ok true
  getFileLatestChanges := fun p => if p == "docs/en/g.md" then ⟨⟨2⟩⟩ else ⟨⟨1⟩⟩
  existsSync := fun p => p == "docs/en/g.md" || p == "docs/fr/g.md"
  glob := fun _ _ => ["docs/en/g.md"]
  getDictionaryCompletion := fun _ _ _ => .error "invalid dictionary"

/-- Environment whose localizable check succeeds on the fr path but fails on
every other path, in particular on the normalized source path. -/
def envLocA : Env where
  createPathResolver := fun _ _ _ => resolverGuide
  isFileLocalizable := fun p _ => if p == "docs/fr/g.md" then .ok true else .error "skip"
  getFileLatestChanges := fun p => if p == "docs/en/g.md" then ⟨⟨2⟩⟩ else ⟨⟨1⟩⟩
  existsSync := fun p => p == "docs/en/g.md" || p == "docs/fr/g.md"
  glob := fun _ _ => ["docs/en/g.md"]
  getDictionaryCompletion := fun _ _ _ => .ok []

/-- As envLocA with a localizable check succeeding everywhere. -/
def envLocB : Env :=
  { envLocA with isFileLocalizable := fun _ _ => .ok true }

/-! Claim theorems. -/

/-- Claim C1, counterexample: in the fixture the fr localized path does not
exist and its localization entry is missing, yet the history lookup list of
the run contains that very path — the source fetches the git history of the
localized path before the existence check, so the History Provider is
invoked even for missing paths, refuting the claim as stated. -/
theorem c1_counterexample :
    envMissingFr.existsSync "docs/fr/g.md" = false ∧
    (getFileStatus envMissingFr cfgOneGroup "docs/en/g.md").map
      (fun out => out.historyCalls) = .ok ["docs/en/g.md", "docs/fr/g.md"] ∧
    (getFileStatus envMissingFr cfgOneGroup "docs/en/g.md").map
      (fun out => out.result.map (fun e => e.localizations.map (fun l => l.status))) =
      .ok (some [LocStatus.missing]) :=
  ⟨rfl, rfl, rfl⟩

/-- Claim C1 (amended): for every target locale whose localized path does
not exist on disk the resolver emits a missing entry, but the History
Provider is still invoked for that path: the history lookup runs exactly
once per source file and once per target locale of every evaluated file,
whether or not the localized file exists. -/
theorem c1_missing_entry_and_history_amended (env : Env) (cfg : LunariaConfig) (path : String)
    (out : FileStatusOutcome) (entry : FileStatusEntry)
    (hok : getFileStatus env cfg path = .ok out)
    (hentry : out.result = some entry) :
    out.historyCalls = entry.source.path :: entry.localizations.map (fun l => l.path) ∧
    ∀ l ∈ entry.localizations, (l.status = .missing ↔ env.existsSync l.path = false) := by
  obtain ⟨fc, hfc, _, _, _, _, _, _, _, _, _, hcalls, hmem⟩ :=
    getFileStatus_ok_spec env cfg path out entry hok hentry
  refine ⟨hcalls, ?_⟩
  intro l hl
  obtain ⟨loc, _, hst⟩ := hmem l hl
  exact (localizationStatus_ok_spec _ _ _ _ _ _ _ _ hst).2.2.1

/-- Witness for the amended claim C1 at the missing-fr fixture. -/
theorem c1_missing_entry_and_history_amended_witness :
    outC1.historyCalls = entryC1.source.path :: entryC1.localizations.map (fun l => l.path) ∧
    ∀ l ∈ entryC1.localizations,
      (l.status = .missing ↔ envMissingFr.existsSync l.path = false) :=
  c1_missing_entry_and_history_amended envMissingFr cfgOneGroup "docs/en/g.md" outC1 entryC1
    rfl rfl

/-- Claim C2, counterexample: with a fixed file tree and history, two
completion orders of the dispatched batch — both permutations of it — make
the run push its entries in different orders, so the reports of the two runs
are not identical and order is not determined by the pre-dispatch sort. -/
theorem c2_counterexample :
    (List.reverse (sortPaths (sourceFilePathsOf envTwoPaths cfgTwoPaths fcAll))).Perm
      (sortPaths (sourceFilePathsOf envTwoPaths cfgTwoPaths fcAll)) ∧
    getFullStatus envTwoPaths cfgTwoPaths id = .ok [entryFor "a.md", entryFor "b.md"] ∧
    getFullStatus envTwoPaths cfgTwoPaths List.reverse =
      .ok [entryFor "b.md", entryFor "a.md"] ∧
    getFullStatus envTwoPaths cfgTwoPaths id ≠
      getFullStatus envTwoPaths cfgTwoPaths List.reverse := by
  refine ⟨List.reverse_perm _, rfl, rfl, ?_⟩
  intro h
  have h1 : getFullStatus envTwoPaths cfgTwoPaths id =
      .ok [entryFor "a.md", entryFor "b.md"] := rfl
  have h2 : getFullStatus envTwoPaths cfgTwoPaths List.reverse =
      .ok [entryFor "b.md", entryFor "a.md"] := rfl
  rw [h1, h2] at h
  injection h with h3
  exact absurd h3 (by decide)

/-- Claim C2 (amended): the dispatched paths are the deterministic
lexicographic sort of the kept paths, but entries are pushed in completion
order; hence two runs over the same tree and history agree up to
permutation — same entries, possibly different order — rather than being
identical. -/
theorem c2_report_perm_amended (env : Env) (cfg : LunariaConfig)
    (sched1 sched2 : List String → List String)
    (r1 r2 : List FileStatusEntry)
    (hs1 : ∀ l, (sched1 l).Perm l) (hs2 : ∀ l, (sched2 l).Perm l)
    (h1 : getFullStatus env cfg sched1 = .ok r1)
    (h2 : getFullStatus env cfg sched2 = .ok r2) :
    r1.Perm r2 := by
  unfold getFullStatus at h1 h2
  exact getFullStatusAux_perm env cfg sched1 sched2 hs1 hs2 cfg.files r1 r2 h1 h2

/-- Witness for the amended claim C2: a reversed completion order yields a
permutation of the in-order report. -/
theorem c2_report_perm_amended_witness :
    ([entryFor "b.md", entryFor "a.md"] : List FileStatusEntry).Perm
      [entryFor "a.md", entryFor "b.md"] :=
  c2_report_perm_amended envTwoPaths cfgTwoPaths List.reverse id
    [entryFor "b.md", entryFor "a.md"] [entryFor "a.md", entryFor "b.md"]
    (fun l => List.reverse_perm l) (fun l => List.Perm.refl l) rfl rfl

/-- Claim C3: for every existing localized file the status is outdated iff
the latest tracked source change is strictly newer than the latest tracked
localized change; otherwise — ties included — the status is up-to-date. -/
theorem c3_outdated_iff_strictly_newer (env : Env) (cfg : LunariaConfig) (path : String)
    (out : FileStatusOutcome) (entry : FileStatusEntry) (l : StatusLocalizationEntry)
    (hok : getFileStatus env cfg path = .ok out)
    (hentry : out.result = some entry)
    (hl : l ∈ entry.localizations)
    (hex : env.existsSync l.path = true) :
    (l.status = .outdated ↔
      entry.source.git.latestTrackedChange.date >
        (env.getFileLatestChanges l.path).latestTrackedChange.date) ∧
    (l.status = .outdated ∨ l.status = .upToDate) := by
  obtain ⟨fc, hfc, _, _, _, _, _, _, _, hgit, _, _, hmem⟩ :=
    getFileStatus_ok_spec env cfg path out entry hok hentry
  obtain ⟨loc, _, hst⟩ := hmem l hl
  obtain ⟨_, hiff, hor⟩ :=
    (localizationStatus_ok_spec _ _ _ _ _ _ _ _ hst).2.2.2.2.2 hex
  exact ⟨by rw [hgit]; exact hiff, hor⟩

/-- Witness for claim C3 at the outdated-fr fixture. -/
theorem c3_outdated_iff_strictly_newer_witness :
    (lC3.status = LocStatus.outdated ↔
      entryC3.source.git.latestTrackedChange.date >
        (envExistsFr.getFileLatestChanges lC3.path).latestTrackedChange.date) ∧
    (lC3.status = LocStatus.outdated ∨ lC3.status = LocStatus.upToDate) :=
  c3_outdated_iff_strictly_newer envExistsFr cfgOneGroup "docs/en/g.md" outC3 entryC3 lC3
    rfl rfl (List.mem_cons_self _ _) rfl

/-- Claim C4: a dictionary completion failure on an evaluated path aborts
the whole run — no status report is produced — after surfacing the parse
error message, which indeed originates from the dictionary completion check
of the matched dictionary group on an existing localized path. -/
theorem c4_parse_error_aborts_run (env : Env) (cfg : LunariaConfig)
    (sched : List String → List String) (p msg : String)
    (hp : p ∈ evaluatedPaths env cfg sched)
    (herr : getFileStatus env cfg p = .error msg) :
    (getFullStatus env cfg sched).isOk = false ∧
    ∃ fc, findFileConfig env cfg p = some fc ∧ fc.type = .dictionary ∧
      ∃ loc ∈ cfg.locales,
        env.existsSync ((getPathResolver env cfg fc.pattern).toPath p loc.lang) = true ∧
        env.getDictionaryCompletion fc.optionalKeys (sourcePathOf env cfg fc p)
          ((getPathResolver env cfg fc.pattern).toPath p loc.lang) = .error msg := by
  refine ⟨?_, getFileStatus_error_spec env cfg p msg herr⟩
  cases hfull : getFullStatus env cfg sched with
  | error m => rfl
  | ok r =>
    exfalso
    unfold getFullStatus at hfull
    obtain ⟨_, hall⟩ := getFullStatusAux_ok_spec env cfg sched cfg.files r hfull
    unfold evaluatedPaths at hp
    rw [List.mem_flatten] at hp
    obtain ⟨batch, hbatch, hpb⟩ := hp
    rw [List.mem_map] at hbatch
    obtain ⟨f, hf, hfb⟩ := hbatch
    have hok := hall f hf p (hfb ▸ hpb)
    rw [herr] at hok
    simp [Except.isOk, Except.toBool] at hok

/-- Witness for claim C4 at the failing-dictionary fixture. -/
theorem c4_parse_error_aborts_run_witness :
    (getFullStatus envDictFail cfgDict id).isOk = false ∧
    ∃ fc, findFileConfig envDictFail cfgDict "docs/en/g.md" = some fc ∧
      fc.type = .dictionary ∧
      ∃ loc ∈ cfgDict.locales,
        envDictFail.existsSync
          ((getPathResolver envDictFail cfgDict fc.pattern).toPath "docs/en/g.md" loc.lang) =
          true ∧
        envDictFail.getDictionaryCompletion fc.optionalKeys
          (sourcePathOf envDictFail cfgDict fc "docs/en/g.md")
          ((getPathResolver envDictFail cfgDict fc.pattern).toPath "docs/en/g.md" loc.lang) =
          .error "invalid dictionary" :=
  c4_parse_error_aborts_run envDictFail cfgDict id "docs/en/g.md" "invalid dictionary"
    (by decide) rfl

/-- Claim C5: a path with no matching file group, or one whose localizable
check fails, produces no entry, is logged, and its presence or absence in
the dispatched batch leaves the results of all other files unchanged. -/
theorem c5_skipped_file_isolated (env : Env) (cfg : LunariaConfig) (path : String)
    (l1 l2 : List String)
    (h : findFileConfig env cfg path = none ∨
         ∃ msg, env.isFileLocalizable path cfg.localizableProperty = .error msg) :
    (∃ out, getFileStatus env cfg path = .ok out ∧ out.result = none ∧ out.log ≠ []) ∧
    processPaths env cfg (l1 ++ path :: l2) = processPaths env cfg (l1 ++ l2) := by
  obtain ⟨out, hout, hres, hlog⟩ := getFileStatus_skip_spec env cfg path h
  exact ⟨⟨out, hout, hres, hlog⟩, processPaths_skip env cfg path out hout hres l1 l2⟩

/-- Witness for claim C5: the path x.md matches no file group of the
fixture, is skipped with a log line, and does not disturb the other file. -/
theorem c5_skipped_file_isolated_witness :
    (∃ out, getFileStatus envMissingFr cfgOneGroup "x.md" = .ok out ∧
        out.result = none ∧ out.log ≠ []) ∧
    processPaths envMissingFr cfgOneGroup (["docs/en/g.md"] ++ "x.md" :: []) =
      processPaths envMissingFr cfgOneGroup (["docs/en/g.md"] ++ []) :=
  c5_skipped_file_isolated envMissingFr cfgOneGroup "x.md" ["docs/en/g.md"] [] (Or.inl rfl)

/-- Claim C6, counterexample: two file groups whose include globs overlap
evaluate the same path once per group, and the report carries two entries
with the same source path, violating the uniqueness invariant as stated. -/
theorem c6_counterexample :
    (getFullStatus envDup cfgDup id).map (fun r => r.map (fun e => e.source.path)) =
      .ok ["a.md", "a.md"] ∧
    ¬ (["a.md", "a.md"] : List String).Nodup :=
  ⟨rfl, by decide⟩

/-- Claim C6 (amended): in a configuration with a single file group whose
glob expansion is duplicate free, every report entry has a distinct source
path; with several overlapping groups the same source path can appear once
per group. -/
theorem c6_unique_source_path_amended (env : Env) (cfg : LunariaConfig) (f : FileConfig)
    (sched : List String → List String) (r : List FileStatusEntry)
    (hf : cfg.files = [f])
    (hglob : (env.glob f.include_ f.exclude).Nodup)
    (hsched : ∀ l, (sched l).Perm l)
    (hok : getFullStatus env cfg sched = .ok r) :
    (r.map (fun e => e.source.path)).Nodup := by
  unfold getFullStatus at hok
  rw [hf] at hok
  obtain ⟨hr, _⟩ := getFullStatusAux_ok_spec env cfg sched [f] r hok
  simp only [List.map_cons, List.map_nil, List.flatten_cons, List.flatten_nil,
    List.append_nil] at hr
  have hs : (sourceFilePathsOf env cfg f).Nodup := by
    unfold sourceFilePathsOf
    exact hglob.filter _
  have hsort : (sortPaths (sourceFilePathsOf env cfg f)).Nodup :=
    ((sortPaths_perm _).nodup_iff).mpr hs
  have hd : (sched (sortPaths (sourceFilePathsOf env cfg f))).Nodup :=
    ((hsched _).nodup_iff).mpr hsort
  have hkey : ∀ p ∈ sched (sortPaths (sourceFilePathsOf env cfg f)),
      ∀ e, pureEntry env cfg p = some e → e.source.path = p := by
    intro p hp e he
    have hp2 : p ∈ sourceFilePathsOf env cfg f :=
      (sortPaths_perm _).subset ((hsched _).subset hp)
    have hmatch : (getPathResolver env cfg f.pattern).isSourcePathMatch p = true := by
      unfold sourceFilePathsOf at hp2
      exact (List.mem_filter.mp hp2).2
    unfold pureEntry at he
    cases hgs : getFileStatus env cfg p with
    | error m =>
      rw [hgs] at he
      simp at he
    | ok o =>
      rw [hgs] at he
      dsimp only at he
      obtain ⟨fc2, hfc2, _, _, _, _, _, _, hsp, _⟩ :=
        getFileStatus_ok_spec env cfg p o e hgs he
      have hfind : findFileConfig env cfg p = some f := by
        unfold findFileConfig
        rw [hf]
        have hg : groupMatches env cfg f p = true := by
          unfold groupMatches
          simp [hmatch]
        simp [List.find?, hg]
      rw [hfind] at hfc2
      injection hfc2 with hfc3
      subst hfc3
      rw [hsp]
      unfold sourcePathOf
      simp [hmatch]
  rw [hr]
  exact List.Nodup.sublist
    (filterMap_map_key_sublist (pureEntry env cfg) (fun e => e.source.path) _ hkey) hd

/-- Witness for the amended claim C6 at the two-path single-group fixture. -/
theorem c6_unique_source_path_amended_witness :
    (([entryFor "a.md", entryFor "b.md"] : List FileStatusEntry).map
      (fun e => e.source.path)).Nodup :=
  c6_unique_source_path_amended envTwoPaths cfgTwoPaths fcAll id
    [entryFor "a.md", entryFor "b.md"] rfl (by decide) (fun l => List.Perm.refl l) rfl

/-- Claim C7: in every localization entry of a produced report entry the
localized change record is absent exactly when the status is missing, and
missing keys are only present for entries of dictionary groups. -/
theorem c7_git_absent_iff_missing_and_dictionary_keys (env : Env) (cfg : LunariaConfig)
    (path : String) (out : FileStatusOutcome) (entry : FileStatusEntry)
    (l : StatusLocalizationEntry)
    (hok : getFileStatus env cfg path = .ok out)
    (hentry : out.result = some entry)
    (hl : l ∈ entry.localizations) :
    (l.git = none ↔ l.status = .missing) ∧
    (l.missingKeys ≠ none → entry.type = .dictionary) := by
  obtain ⟨fc, hfc, _, _, _, htype, _, _, _, _, _, _, hmem⟩ :=
    getFileStatus_ok_spec env cfg path out entry hok hentry
  obtain ⟨loc, _, hst⟩ := hmem l hl
  have h2 := localizationStatus_ok_spec _ _ _ _ _ _ _ _ hst
  refine ⟨h2.2.2.2.1, fun hmk => ?_⟩
  rw [htype]
  exact h2.2.2.2.2.1 hmk

/-- Witness for claim C7 at the outdated-fr fixture. -/
theorem c7_git_absent_iff_missing_and_dictionary_keys_witness :
    (lC3.git = none ↔ lC3.status = LocStatus.missing) ∧
    (lC3.missingKeys ≠ none → entryC3.type = FileType.dictionary) :=
  c7_git_absent_iff_missing_and_dictionary_keys envExistsFr cfgOneGroup "docs/en/g.md"
    outC3 entryC3 lC3 rfl rfl (List.mem_cons_self _ _)

/-- The first element of a list satisfying the predicate is found when the
prefix before it does not satisfy it. -/
theorem find?_append_first {α : Type} (p : α → Bool) :
    ∀ (pre : List α) (a : α) (post : List α),
      (∀ x ∈ pre, p x = false) → p a = true →
      (pre ++ a :: post).find? p = some a
  | [], a, post, _, ha => by simp [List.find?_cons_of_pos, ha]
  | x :: pre, a, post, hpre, ha => by
    rw [List.cons_append, List.find?_cons_of_neg]
    · exact find?_append_first p pre a post
        (fun y hy => hpre y (List.mem_cons_of_mem _ hy)) ha
    · simp [hpre x (List.mem_cons_self _ _)]

/-- Claim C8: when a path matches the pattern of more than one file group,
findFileConfig silently returns the first matching group in configuration
declaration order; no ambiguity error is raised. -/
theorem c8_first_matching_group_wins (env : Env) (cfg : LunariaConfig) (path : String)
    (pre post : List FileConfig) (f1 f2 : FileConfig)
    (hsplit : cfg.files = pre ++ f1 :: post)
    (hpre : ∀ f ∈ pre, groupMatches env cfg f path = false)
    (hm1 : groupMatches env cfg f1 path = true)
    (hf2 : f2 ∈ post) (hm2 : groupMatches env cfg f2 path = true) :
    findFileConfig env cfg path = some f1 := by
  unfold findFileConfig
  rw [hsplit]
  exact find?_append_first _ pre f1 post hpre hm1

/-- Witness for claim C8: a.md matches both groups of the overlapping
fixture and the first one is selected. -/
theorem c8_first_matching_group_wins_witness :
    findFileConfig envDup cfgDup "a.md" = some fcAll :=
  c8_first_matching_group_wins envDup cfgDup "a.md" [] [fcDup2] fcAll fcDup2 rfl
    (fun f hf => absurd hf (List.not_mem_nil f)) rfl (List.mem_cons_self _ _) rfl

/-- The per-locale callback reads only the history, filesystem and
dictionary oracles of the environment. -/
theorem localizationStatus_env_congr (env1 env2 : Env)
    (hg : env1.getFileLatestChanges = env2.getFileLatestChanges)
    (he : env1.existsSync = env2.existsSync)
    (hd : env1.getDictionaryCompletion = env2.getDictionaryCompletion)
    (fc : FileConfig) (sp : String) (r : PathResolver) (lsc : ChangeRecord)
    (path lang : String) :
    localizationStatus env1 fc sp r lsc path lang =
      localizationStatus env2 fc sp r lsc path lang := by
  unfold localizationStatus
  rw [hg, he, hd]

/-- The localizations fold reads only the history, filesystem and dictionary
oracles of the environment. -/
theorem localizationsFold_env_congr (env1 env2 : Env)
    (hg : env1.getFileLatestChanges = env2.getFileLatestChanges)
    (he : env1.existsSync = env2.existsSync)
    (hd : env1.getDictionaryCompletion = env2.getDictionaryCompletion) :
    localizationsFold env1 = localizationsFold env2 := by
  funext fc sp r lsc path locs
  induction locs with
  | nil => rfl
  | cons loc rest ih =>
    unfold localizationsFold
    rw [localizationStatus_env_congr env1 env2 hg he hd fc sp r lsc path loc.lang, ih]

/-- Claim C9: the localizable eligibility check is evaluated on the path
exactly as given to getFileStatus: the outcome depends on the eligibility
oracle only through its value at that path, never at the normalized source
path derived from it. -/
theorem c9_localizable_checked_on_given_path (env1 env2 : Env) (cfg : LunariaConfig)
    (path : String)
    (hc : env1.createPathResolver = env2.createPathResolver)
    (hg : env1.getFileLatestChanges = env2.getFileLatestChanges)
    (he : env1.existsSync = env2.existsSync)
    (hd : env1.getDictionaryCompletion = env2.getDictionaryCompletion)
    (hl : env1.isFileLocalizable path cfg.localizableProperty =
          env2.isFileLocalizable path cfg.localizableProperty) :
    getFileStatus env1 cfg path = getFileStatus env2 cfg path := by
  unfold getFileStatus findFileConfig groupMatches sourcePathOf getPathResolver
  rw [hc, hg, hl, localizationsFold_env_congr env1 env2 hg he hd]

/-- Witness for claim C9: an eligibility oracle failing on the normalized
source path but succeeding on the given fr path yields the very same
outcome as one succeeding everywhere. -/
theorem c9_localizable_checked_on_given_path_witness :
    getFileStatus envLocA cfgOneGroup "docs/fr/g.md" =
      getFileStatus envLocB cfgOneGroup "docs/fr/g.md" :=
  c9_localizable_checked_on_given_path envLocA envLocB cfgOneGroup "docs/fr/g.md"
    rfl rfl rfl rfl rfl

/-- Claim C10: every produced report entry carries, at top level, all fields
of the matched file group configuration, alongside source and
localizations. -/
theorem c10_entry_spreads_file_config (env : Env) (cfg : LunariaConfig) (path : String)
    (out : FileStatusOutcome) (entry : FileStatusEntry) (fc : FileConfig)
    (hok : getFileStatus env cfg path = .ok out)
    (hentry : out.result = some entry)
    (hfc : findFileConfig env cfg path = some fc) :
    entry.include_ = fc.include_ ∧ entry.exclude = fc.exclude ∧
    entry.pattern = fc.pattern ∧ entry.type = fc.type ∧
    entry.optionalKeys = fc.optionalKeys := by
  obtain ⟨fc2, hfc2, h1, h2, h3, h4, h5, _⟩ :=
    getFileStatus_ok_spec env cfg path out entry hok hentry
  rw [hfc] at hfc2
  injection hfc2 with hfc3
  subst hfc3
  exact ⟨h1, h2, h3, h4, h5⟩

/-- Witness for claim C10 at the outdated-fr fixture. -/
theorem c10_entry_spreads_file_config_witness :
    entryC3.include_ = fcUniversal.include_ ∧ entryC3.exclude = fcUniversal.exclude ∧
    entryC3.pattern = fcUniversal.pattern ∧ entryC3.type = fcUniversal.type ∧
    entryC3.optionalKeys = fcUniversal.optionalKeys :=
  c10_entry_spreads_file_config envExistsFr cfgOneGroup "docs/en/g.md" outC3 entryC3
    fcUniversal rfl rfl rfl

end Lunaria
